import Mathlib

/-!
Verification of the measured-boot PCR precalculation core of uplosi.

Bytes are modelled as `Nat` (values < 256), digests as 32-element byte
lists, and machine words as `Nat` reduced mod 2^32 where overflow matters.
Functions present in the repository sources are translated directly;
components of the measure/extract packages whose sources are not part of
the reviewed tree are modelled from the specification and marked
`Modelled from the spec:` in their doc comments.
-/

/-- Reduce a `Nat` to a 32-bit word. -/
def w32 (n : Nat) : Nat := n % 4294967296

/-- Rotate a 32-bit word right by `n` bits. -/
def rotR (x n : Nat) : Nat := w32 ((x >>> n) ||| (x <<< (32 - n)))

/-- The first sixty-four prime numbers, from which FIPS 180-4 derives
the SHA-256 round constants and initial state. -/
def first64Primes : List Nat :=
  [2, 3, 5, 7, 11, 13, 17, 19, 23, 29, 31, 37, 41, 43, 47, 53,
   59, 61, 67, 71, 73, 79, 83, 89, 97, 101, 103, 107, 109, 113, 127, 131,
   137, 139, 149, 151, 157, 163, 167, 173, 179, 181, 191, 193, 197, 199, 211, 223,
   227, 229, 233, 239, 241, 251, 257, 263, 269, 271, 277, 281, 283, 293, 307, 311]

/-- Fuelled bisection step for the integer cube root: maintains
`lo^3 ≤ n < hi^3` and returns `lo` when the fuel runs out. -/
def cbrtIter (n : Nat) : Nat → Nat → Nat → Nat
  | 0, lo, _ => lo
  | f + 1, lo, hi =>
      let mid := (lo + hi + 1) / 2
      if mid = hi then cbrtIter n f lo hi
      else if mid * mid * mid ≤ n then cbrtIter n f mid hi else cbrtIter n f lo mid

/-- The integer cube root (exact for arguments below `2^117`). -/
def icbrt (n : Nat) : Nat := cbrtIter n 64 0 (2 ^ 39)

/-- SHA-256 round constant for one prime: the first 32 bits of the
fractional part of the prime's cube root (FIPS 180-4 section 4.2.2). -/
def kOfPrime (p : Nat) : Nat := icbrt (p <<< 96) - (icbrt p <<< 32)

/-- The 64 SHA-256 round constants, derived from the primes. -/
def sha256K : List Nat := first64Primes.map kOfPrime

/-- SHA-256 initial word for one prime: the first 32 bits of the
fractional part of the prime's square root (FIPS 180-4 section 5.3.3). -/
def h0OfPrime (p : Nat) : Nat := Nat.sqrt (p <<< 64) - (Nat.sqrt p <<< 32)

/-- The eight-word SHA-256 initial hash state, derived from the primes. -/
def sha256H0 : List Nat := (first64Primes.take 8).map h0OfPrime

/-- Big-endian byte serialization of a 32-bit word. -/
def be32 (x : Nat) : List Nat := [(x >>> 24) % 256, (x >>> 16) % 256, (x >>> 8) % 256, x % 256]

/-- Big-endian byte serialization of a 64-bit value. -/
def be64 (x : Nat) : List Nat := be32 ((x >>> 32) % 4294967296) ++ be32 (w32 x)

/-- SHA-256 message padding: append `0x80`, zero bytes, and the 64-bit
big-endian bit length so the total length is a multiple of 64. -/
def sha256Pad (msg : List Nat) : List Nat :=
  msg ++ 0x80 :: List.replicate ((119 - msg.length % 64) % 64) 0 ++ be64 (8 * msg.length)

/-- Group bytes into big-endian 32-bit words. -/
def toWordsBE : List Nat → List Nat
  | a :: b :: c :: d :: rest => (a * 16777216 + b * 65536 + c * 256 + d) :: toWordsBE rest
  | _ => []

/-- FIPS 180-4 small sigma-0. -/
def smallSigma0 (x : Nat) : Nat := (rotR x 7) ^^^ (rotR x 18) ^^^ (x >>> 3)

/-- FIPS 180-4 small sigma-1. -/
def smallSigma1 (x : Nat) : Nat := (rotR x 17) ^^^ (rotR x 19) ^^^ (x >>> 10)

/-- FIPS 180-4 big Sigma-0. -/
def bigSigma0 (x : Nat) : Nat := (rotR x 2) ^^^ (rotR x 13) ^^^ (rotR x 22)

/-- FIPS 180-4 big Sigma-1. -/
def bigSigma1 (x : Nat) : Nat := (rotR x 6) ^^^ (rotR x 11) ^^^ (rotR x 25)

/-- FIPS 180-4 choice function (complement taken within 32 bits). -/
def chWord (x y z : Nat) : Nat := (x &&& y) ^^^ ((x ^^^ 0xffffffff) &&& z)

/-- FIPS 180-4 majority function. -/
def majWord (x y z : Nat) : Nat := (x &&& y) ^^^ (x &&& z) ^^^ (y &&& z)

/-- Extend the SHA-256 message schedule by `n` further words. -/
def scheduleExt : Nat → List Nat → List Nat
  | 0, ws => ws
  | n + 1, ws =>
      let t := ws.length
      scheduleExt n (ws ++ [w32 (smallSigma1 (ws.getD (t - 2) 0) + ws.getD (t - 7) 0 +
        smallSigma0 (ws.getD (t - 15) 0) + ws.getD (t - 16) 0)])

/-- One SHA-256 compression round on the eight-word working state. -/
def sha256Round (st : List Nat) (kt wt : Nat) : List Nat :=
  match st with
  | [a, b, c, d, e, f, g, h] =>
      let t1 := w32 (h + bigSigma1 e + chWord e f g + kt + wt)
      let t2 := w32 (bigSigma0 a + majWord a b c)
      [w32 (t1 + t2), a, b, c, w32 (d + t1), e, f, g]
  | other => other

/-- SHA-256 compression of one 64-byte block into the hash state. -/
def sha256Compress (h : List Nat) (block : List Nat) : List Nat :=
  let ws := scheduleExt 48 (toWordsBE block)
  let st := (List.zip sha256K ws).foldl (fun st kw => sha256Round st kw.1 kw.2) h
  (List.zip h st).map (fun p => w32 (p.1 + p.2))

/-- Split a byte list into 64-byte chunks. -/
def chunks64 (l : List Nat) : List (List Nat) :=
  if _h : l.length = 0 then [] else
    l.take 64 :: chunks64 (l.drop 64)
termination_by l.length
decreasing_by simp only [List.length_drop]; omega

/-- SHA-256 of a byte list, as its 32 digest bytes. -/
def sha256 (msg : List Nat) : List Nat :=
  (((chunks64 (sha256Pad msg)).foldl sha256Compress sha256H0).map be32).flatten

/-- One step of UTF-8 decoding with the semantics of Go's
`utf8.DecodeRune`: returns the decoded code point and the number of bytes
consumed; any invalid or truncated sequence yields the replacement
character `0xFFFD` with one byte consumed. -/
def utf8DecodeStep : List Nat → Nat × Nat
  | [] => (0xFFFD, 1)
  | b0 :: rest =>
    if b0 < 0x80 then (b0, 1)
    else if b0 < 0xC2 then (0xFFFD, 1)
    else if b0 < 0xE0 then
      match rest with
      | b1 :: _ =>
          if 0x80 ≤ b1 ∧ b1 ≤ 0xBF then ((b0 - 0xC0) * 64 + (b1 - 0x80), 2)
          else (0xFFFD, 1)
      | [] => (0xFFFD, 1)
    else if b0 < 0xF0 then
      match rest with
      | b1 :: b2 :: _ =>
          let lo1 := if b0 = 0xE0 then 0xA0 else 0x80
          let hi1 := if b0 = 0xED then 0x9F else 0xBF
          if lo1 ≤ b1 ∧ b1 ≤ hi1 ∧ 0x80 ≤ b2 ∧ b2 ≤ 0xBF then
            ((b0 - 0xE0) * 4096 + (b1 - 0x80) * 64 + (b2 - 0x80), 3)
          else (0xFFFD, 1)
      | _ => (0xFFFD, 1)
    else if b0 < 0xF5 then
      match rest with
      | b1 :: b2 :: b3 :: _ =>
          let lo1 := if b0 = 0xF0 then 0x90 else 0x80
          let hi1 := if b0 = 0xF4 then 0x8F else 0xBF
          if lo1 ≤ b1 ∧ b1 ≤ hi1 ∧ 0x80 ≤ b2 ∧ b2 ≤ 0xBF ∧ 0x80 ≤ b3 ∧ b3 ≤ 0xBF then
            ((b0 - 0xF0) * 262144 + (b1 - 0x80) * 4096 + (b2 - 0x80) * 64 + (b3 - 0x80), 4)
          else (0xFFFD, 1)
      | _ => (0xFFFD, 1)
    else (0xFFFD, 1)

/-- Decode a UTF-8 byte list into code points, Go-style (invalid input
becomes `0xFFFD`). -/
def utf8Decode : List Nat → List Nat
  | [] => []
  | b :: rest =>
      let s := utf8DecodeStep (b :: rest)
      s.1 :: utf8Decode (rest.drop (s.2 - 1))
termination_by l => l.length
decreasing_by simp only [List.length_drop]; simp only [List.length_cons]; omega

/-- UTF-16 little-endian bytes of one code point (surrogate pair for
values above the basic plane), as emitted by the x/text UTF-16LE
encoder with no byte-order mark. -/
def utf16leOfRune (r : Nat) : List Nat :=
  if r ≤ 0xFFFF then [r % 256, (r >>> 8) % 256]
  else
    let v := r - 0x10000
    let r1 := 0xD800 + (v >>> 10)
    let r2 := 0xDC00 + (v &&& 0x3FF)
    [r1 % 256, (r1 >>> 8) % 256, r2 % 256, (r2 >>> 8) % 256]

/-- Transcode UTF-8 bytes to UTF-16 little-endian with no byte-order
mark, with the exact semantics of
`unicode.UTF16(unicode.LittleEndian, unicode.IgnoreBOM).NewEncoder().Bytes`
from golang.org/x/text: decode runes Go-style, then write each as
UTF-16LE. The transform never fails on complete input. -/
def utf16leEncode (bs : List Nat) : List Nat :=
  ((utf8Decode bs).map utf16leOfRune).flatten

/-- A PCR event log entry: register index, the digest extended into the
register, the optional raw payload kept for diagnostics, and a
description string (diagnostic formatting of the Go code elided). -/
structure PcrEvent where
  index : Nat
  digest : List Nat
  rawPayload : Option (List Nat)
  description : String
deriving DecidableEq, Repr

/-- Modelled from the spec: the register-bank Simulator of the measure
package (its Go source is not part of the reviewed tree): 24 registers,
each a 32-byte digest, plus an append-only event log. -/
structure Simulator where
  bank : List (List Nat)
  eventLog : List PcrEvent
deriving DecidableEq, Repr

/-- Modelled from the spec: `measure.NewDefaultSimulator` returns a bank
with all 24 registers at the 32-zero-byte baseline and an empty log. -/
def NewDefaultSimulator : Simulator :=
  ⟨List.replicate 24 (List.replicate 32 0), []⟩

/-- Error taxonomy of the core (spec section 7). Go wraps causes in
formatted messages; the wrapping strings are non-contractual diagnostics
and are elided, keeping the category and the offending section name. -/
inductive PrecalcError where
  | rangeError (index : Nat)
  | sectionNotFound (name : String)
  | malformedBinary
  | extractionFailed
  | ioError
deriving DecidableEq, Repr

/-- Modelled from the spec: `Simulator.ExtendPCR` validates the index,
computes `Bank[index] = SHA256(Bank[index] ++ eventDigest)` and appends
an event; on an out-of-range index it reports a range error and leaves
the state unchanged. State is threaded explicitly: the returned pair is
the Go error value and the simulator after the call. -/
def ExtendPCR (sim : Simulator) (idx : Nat) (digest : List Nat)
    (raw : Option (List Nat)) (desc : String) :
    Except PrecalcError Unit × Simulator :=
  if idx < 24 then
    (.ok (), ⟨sim.bank.set idx (sha256 (sim.bank.getD idx [] ++ digest)),
              sim.eventLog ++ [⟨idx, digest, raw, desc⟩]⟩)
  else (.error (.rangeError idx), sim)

/-- The command-line repair of `PredictPCR9` (pcr09.go lines 35-39): if
the command line is empty or its final byte is not NUL, append one NUL
byte. -/
def nulTerminate (cmdline : List Nat) : List Nat :=
  if cmdline.length = 0 ∨ cmdline.getLast? ≠ some 0 then cmdline ++ [0] else cmdline

/-- Translation of `measure.PredictPCR9` (pcr09.go): repair the command
line, transcode it to UTF-16LE, extend PCR 9 with the SHA-256 of the
transcoded bytes (keeping them as raw payload), then extend PCR 9 with
the supplied initrd digest (no raw payload). The Go UTF-16 encoder never
fails on complete input, so its error branch is unreachable and elided. -/
def PredictPCR9 (simulator : Simulator) (cmdline : List Nat)
    (initrdDigest : List Nat) : Except PrecalcError Unit × Simulator :=
  let cmdline' := nulTerminate cmdline
  let cmdlineUTF16LE := utf16leEncode cmdline'
  match ExtendPCR simulator 9 (sha256 cmdlineUTF16LE) (some cmdlineUTF16LE)
      "EV_EVENT_TAG: Linux LOAD_FILE2 protocol: cmdline" with
  | (.error e, sim) => (.error e, sim)
  | (.ok _, sim) =>
      ExtendPCR sim 9 initrdDigest none
        "EV_EVENT_TAG: Linux LOAD_FILE2 protocol: initrd"

/-- A section-table entry: name, on-disk file offset, on-disk size. The
entry describes a byte range of the binary and owns no bytes itself. -/
structure PESectionHdr where
  name : String
  off : Nat
  size : Nat
deriving DecidableEq, Repr

/-- Modelled from the spec: the header geometry that the PE/COFF parser
of the extract package (source not in the reviewed tree) recovers from a
binary: the offset of the 4-byte checksum field, the offset of the
8-byte certificate-table directory entry, the end of the headers, the
section table, and the location of an attached certificate table
(signature); `certSize = 0` means no signature is attached. -/
structure PEMeta where
  checksumOff : Nat
  certDirOff : Nat
  headerEnd : Nat
  sections : List PESectionHdr
  certOff : Nat
  certSize : Nat
deriving DecidableEq, Repr

/-- The bytes of `l` at indices `[a, b)`. -/
def byteRange (l : List Nat) (a b : Nat) : List Nat := (l.take b).drop a

/-- Overwrite the bytes of `l` starting at `off` with `repl`. -/
def setRange (l : List Nat) (off : Nat) (repl : List Nat) : List Nat :=
  l.take off ++ repl ++ l.drop (off + repl.length)

/-- Sections in ascending order of on-disk offset (insertion sort, as
the hashing order is ascending offset, not declaration order). -/
def insertByOff (s : PESectionHdr) : List PESectionHdr → List PESectionHdr
  | [] => [s]
  | t :: rest => if s.off ≤ t.off then s :: t :: rest else t :: insertByOff s rest

/-- Sort the section table by ascending on-disk offset. -/
def sectionsByOffset : List PESectionHdr → List PESectionHdr
  | [] => []
  | s :: rest => insertByOff s (sectionsByOffset rest)

/-- End of the last section (at least the end of the headers). -/
def secsEnd (m : PEMeta) : Nat :=
  m.sections.foldl (fun acc s => max acc (s.off + s.size)) m.headerEnd

/-- Modelled from the spec: the byte stream hashed by the Authenticode
whole-image hash: file header bytes up to (excluding) the checksum
field; skip the 4-byte checksum; bytes up to (excluding) the
certificate-table directory entry; skip that 8-byte entry; the
remaining header bytes; each section's raw data in ascending order of
on-disk offset; and trailing file content after the last section,
excluding the attached signature, which by the Authenticode convention
is the final `certSize` bytes of the file. -/
def authentihashInput (m : PEMeta) (bytes : List Nat) : List Nat :=
  byteRange bytes 0 m.checksumOff
    ++ byteRange bytes (m.checksumOff + 4) m.certDirOff
    ++ byteRange bytes (m.certDirOff + 8) m.headerEnd
    ++ ((sectionsByOffset m.sections).map (fun s => byteRange bytes s.off (s.off + s.size))).flatten
    ++ byteRange bytes (secsEnd m) (bytes.length - m.certSize)

/-- Modelled from the spec: `measure.Authentihash` with SHA-256: the
digest of the Authenticode byte stream. -/
def Authentihash (m : PEMeta) (bytes : List Nat) : List Nat :=
  sha256 (authentihashInput m bytes)

/-- `measure.Authentihash` as invoked on a raw byte stream: parse the
PE headers (the parser is injected, per the design notes of the spec),
then hash. -/
def AuthentihashOf (parsePE : List Nat → Except PrecalcError PEMeta)
    (bytes : List Nat) : Except PrecalcError (List Nat) :=
  match parsePE bytes with
  | .error e => .error e
  | .ok m => .ok (Authentihash m bytes)

/-- Modelled from the spec: `extract.PeSectionReader` locates a section
by exact name and returns its on-disk byte range, failing with
`SectionNotFound` if no section matches. -/
def PeSectionReader (parsePE : List Nat → Except PrecalcError PEMeta)
    (bytes : List Nat) (name : String) : Except PrecalcError (List Nat) :=
  match parsePE bytes with
  | .error e => .error e
  | .ok m =>
    match m.sections.find? (fun s => s.name = name) with
    | some s => .ok (byteRange bytes s.off (s.off + s.size))
    | none => .error (.sectionNotFound name)

/-- Modelled from the spec: `extract.PeFileSectionDigests` parses the
section table and yields the ordered list of section names with the
SHA-256 of each section's on-disk raw bytes. -/
def PeFileSectionDigests (parsePE : List Nat → Except PrecalcError PEMeta)
    (bytes : List Nat) : Except PrecalcError (List (String × List Nat)) :=
  match parsePE bytes with
  | .error e => .error e
  | .ok m =>
    .ok (m.sections.map (fun s => (s.name, sha256 (byteRange bytes s.off (s.off + s.size)))))

/-- One EFI boot stage to be measured into PCR 4 (name and the event
digest), as built by `precalculatePCR4`. -/
structure EFIBootStage where
  name : String
  digest : List Nat
deriving DecidableEq, Repr

/-- Modelled from the spec: `measure.PredictPCR4` extends PCR 4 with the
digest of each boot stage, in list order. -/
def PredictPCR4 (simulator : Simulator) (stages : List EFIBootStage) :
    Except PrecalcError Unit × Simulator :=
  match stages with
  | [] => (.ok (), simulator)
  | st :: rest =>
    match ExtendPCR simulator 4 st.digest none
        ("EV_EFI_BOOT_SERVICES_APPLICATION: " ++ st.name) with
    | (.error e, sim) => (.error e, sim)
    | (.ok _, sim) => PredictPCR4 sim rest

/-- Modelled from the spec: the fixed, ordered list of known UKI section
names iterated by the PCR 11 predictor (the enumeration order of the
modeled systemd boot stub). -/
def ukiSectionNames : List String :=
  [".linux", ".osrel", ".cmdline", ".initrd", ".splash", ".dtb", ".uname",
   ".sbat", ".pcrpkey"]

/-- Modelled from the spec: `measure.PredictPCR11` walks the fixed name
list and, for each name present in the measured binary, extends PCR 11
with the section digest already computed by the extractor; absent
sections are skipped entirely. -/
def PredictPCR11 (simulator : Simulator) (secs : List (String × List Nat)) :
    Except PrecalcError Unit × Simulator :=
  go simulator ukiSectionNames
where
  /-- Walk the remaining names. -/
  go (simulator : Simulator) : List String → Except PrecalcError Unit × Simulator
    | [] => (.ok (), simulator)
    | name :: rest =>
      match secs.find? (fun s => s.1 = name) with
      | some s =>
        match ExtendPCR simulator 11 s.2 none ("EV_EVENT_TAG: UKI section: " ++ name) with
        | (.error e, sim) => (.error e, sim)
        | (.ok _, sim) => go sim rest
      | none => go simulator rest

/-- The effectful collaborators of the orchestrator, injected per the
design notes of the spec: scoped temporary-directory creation, the
external dissection subprocess (arguments: toolchain, image file,
in-image path, output file), file opening, and PE header parsing. -/
structure Env where
  tempDir : Except PrecalcError String
  copyFrom : String → String → String → String → Except PrecalcError Unit
  openFile : String → Except PrecalcError (List Nat)
  parsePE : List Nat → Except PrecalcError PEMeta

/-- Translation of `measurePE`: open the PE file and compute its
Authenticode hash. -/
def measurePE (env : Env) (peFile : String) : Except PrecalcError (List Nat) :=
  match env.openFile peFile with
  | .error e => .error e
  | .ok f => AuthentihashOf env.parsePE f

/-- Translation of `precalculatePCR4`: Authenticode-hash the whole UKI,
Authenticode-hash the bytes of its `.linux` section, and predict PCR 4
from the two boot stages UKI-then-Linux, each event digest being the
SHA-256 of the corresponding Authenticode hash (`measure.PCR256`).
Diagnostic output (`DescribeBootStages`) is elided. -/
def precalculatePCR4 (env : Env) (simulator : Simulator) (ukiFile : String) :
    Except PrecalcError Unit × Simulator :=
  match measurePE env ukiFile with
  | .error e => (.error e, simulator)
  | .ok ukiMeasurement =>
  match env.openFile ukiFile with
  | .error e => (.error e, simulator)
  | .ok ukiPe =>
  match PeSectionReader env.parsePE ukiPe ".linux" with
  | .error e => (.error e, simulator)
  | .ok linuxSectionBytes =>
  match AuthentihashOf env.parsePE linuxSectionBytes with
  | .error e => (.error e, simulator)
  | .ok linuxMeasurement =>
    PredictPCR4 simulator
      [⟨"Unified Kernel Image (UKI)", sha256 ukiMeasurement⟩,
       ⟨"Linux", sha256 linuxMeasurement⟩]

/-- Translation of `precalculatePCR9`: open the UKI, read the `.cmdline`
section, read the `.initrd` section and stream it through SHA-256, then
predict PCR 9. Both section reads happen before any extend. Diagnostic
output (`DescribeLinuxLoad2`) is elided. -/
def precalculatePCR9 (env : Env) (simulator : Simulator) (ukiFile : String) :
    Except PrecalcError Unit × Simulator :=
  match env.openFile ukiFile with
  | .error e => (.error e, simulator)
  | .ok ukiPe =>
  match PeSectionReader env.parsePE ukiPe ".cmdline" with
  | .error e => (.error e, simulator)
  | .ok cmdlineBytes =>
  match PeSectionReader env.parsePE ukiPe ".initrd" with
  | .error e => (.error e, simulator)
  | .ok initrdBytes =>
    PredictPCR9 simulator cmdlineBytes (sha256 initrdBytes)

/-- Translation of `precalculatePCR11`: predict PCR 11 from the section
digests computed up front. Diagnostic output (`DescribeUKISections`) is
elided. -/
def precalculatePCR11 (simulator : Simulator) (ukiSections : List (String × List Nat)) :
    Except PrecalcError Unit × Simulator :=
  PredictPCR11 simulator ukiSections

/-- Translation of `PrecalculatePCRs`: create a scoped temporary
directory, create the simulator, extract the UKI from the raw image via
the external dissection tool, extract the section digests once up
front, then run the PCR 4, PCR 9 and PCR 11 predictors in that order
against the one simulator; any failure returns the error and no
simulator. Temporary-directory removal and stderr diagnostics have no
bearing on the returned value and are elided. -/
def PrecalculatePCRs (env : Env) (dissectToolchain ukiPath imageFile : String) :
    Except PrecalcError Simulator :=
  match env.tempDir with
  | .error e => .error e
  | .ok dir =>
    let simulator := NewDefaultSimulator
    let ukiFile := dir ++ "/uki.efi"
    match env.copyFrom dissectToolchain imageFile ukiPath ukiFile with
    | .error e => .error e
    | .ok _ =>
    match env.openFile ukiFile with
    | .error e => .error e
    | .ok ukiReader =>
    match PeFileSectionDigests env.parsePE ukiReader with
    | .error e => .error e
    | .ok ukiSections =>
    match precalculatePCR4 env simulator ukiFile with
    | (.error e, _) => .error e
    | (.ok _, sim1) =>
    match precalculatePCR9 env sim1 ukiFile with
    | (.error e, _) => .error e
    | (.ok _, sim2) =>
    match precalculatePCR11 sim2 ukiSections with
    | (.error e, _) => .error e
    | (.ok _, sim3) => .ok sim3

/-- The process environment seen by `loadToolchain`: environment
variables, executable lookup on the search path (`exec.LookPath`), and
conversion to an absolute path (`filepath.Abs`). -/
structure ToolchainEnv where
  getenv : String → String
  lookPath : String → Except PrecalcError String
  abs : String → Except PrecalcError String

/-- Translation of `loadToolchain` (precalculate-measurements.go): take
the environment override, fall back to the given name when it is empty,
resolve it on the search path and make it absolute; on any resolution
failure return the empty string instead of an error. -/
def loadToolchain (env : ToolchainEnv) (key fallback : String) : String :=
  let toolchain := env.getenv key
  let toolchain := if toolchain = "" then fallback else toolchain
  match env.lookPath toolchain with
  | .error _ => ""
  | .ok found =>
    match env.abs found with
    | .error _ => ""
    | .ok absolutePath => absolutePath

/-- The flags of the precalculate-measurements command. -/
structure PrecalcFlags where
  outputFile : String
  ukiPath : String
deriving DecidableEq, Repr

/-- The effectful collaborators of `runPrecalculateMeasurements`: the
outcome of `PrecalculatePCRs` and the outcome of `writeOutput` per
output path (file creation plus JSON serialization of the simulator). -/
structure RunEnv where
  precalc : Except PrecalcError Simulator
  writeOut : String → Except PrecalcError Unit

/-- Translation of `runPrecalculateMeasurements`: run the
precalculation; on success, if the output-file flag is non-empty,
persist the serialized simulator via `writeOutput` and fail if that
fails. The returned Boolean records whether the serialized simulator
was persisted to the output file. -/
def runPrecalculateMeasurements (env : RunEnv) (flags : PrecalcFlags) :
    Except PrecalcError Unit × Bool :=
  match env.precalc with
  | .error e => (.error e, false)
  | .ok _ =>
    if flags.outputFile ≠ "" then
      match env.writeOut flags.outputFile with
      | .error e => (.error e, false)
      | .ok _ => (.ok (), true)
    else (.ok (), false)

/-- A command line whose last byte is not NUL gains exactly one NUL. -/
lemma nulTerminate_of_getLast_ne (c : List Nat) (h : c.getLast? ≠ some 0) :
    nulTerminate c = c ++ [0] := by
  unfold nulTerminate
  rw [if_pos (Or.inr h)]

/-- A command line already ending in NUL is left unchanged. -/
lemma nulTerminate_concat_zero (c : List Nat) : nulTerminate (c ++ [0]) = c ++ [0] := by
  unfold nulTerminate
  rw [if_neg]
  simp [List.getLast?_concat]

/-- C1: for every command-line byte sequence and every 32-byte initrd
digest, `PredictPCR9` performs exactly two ordered extends of register
9: first with the SHA-256 of the UTF-16LE (no BOM) transcoding of the
NUL-terminated command line, retaining the transcoded bytes as raw
payload; second with the supplied initrd digest itself, not hashed
again and with no raw payload. -/
theorem predictPCR9_two_ordered_extends (sim : Simulator) (cmdline initrdDigest : List Nat)
    (_hlen : initrdDigest.length = 32) :
    ∃ s₀ s₁,
      ExtendPCR sim 9 (sha256 (utf16leEncode (nulTerminate cmdline)))
        (some (utf16leEncode (nulTerminate cmdline)))
        "EV_EVENT_TAG: Linux LOAD_FILE2 protocol: cmdline" = (.ok (), s₀) ∧
      ExtendPCR s₀ 9 initrdDigest none
        "EV_EVENT_TAG: Linux LOAD_FILE2 protocol: initrd" = (.ok (), s₁) ∧
      PredictPCR9 sim cmdline initrdDigest = (.ok (), s₁) ∧
      s₁.eventLog = sim.eventLog ++
        [⟨9, sha256 (utf16leEncode (nulTerminate cmdline)),
          some (utf16leEncode (nulTerminate cmdline)),
          "EV_EVENT_TAG: Linux LOAD_FILE2 protocol: cmdline"⟩,
         ⟨9, initrdDigest, none, "EV_EVENT_TAG: Linux LOAD_FILE2 protocol: initrd"⟩] := by
  refine ⟨_, _, rfl, rfl, rfl, ?_⟩
  simp

/-- Closed instance of `predictPCR9_two_ordered_extends` at a concrete
command line and digest. -/
theorem predictPCR9_two_ordered_extends_witness :
    (List.replicate 32 7).length = 32 ∧
    ∃ s₀ s₁,
      ExtendPCR NewDefaultSimulator 9 (sha256 (utf16leEncode (nulTerminate [99, 58, 49])))
        (some (utf16leEncode (nulTerminate [99, 58, 49])))
        "EV_EVENT_TAG: Linux LOAD_FILE2 protocol: cmdline" = (.ok (), s₀) ∧
      ExtendPCR s₀ 9 (List.replicate 32 7) none
        "EV_EVENT_TAG: Linux LOAD_FILE2 protocol: initrd" = (.ok (), s₁) ∧
      PredictPCR9 NewDefaultSimulator [99, 58, 49] (List.replicate 32 7) = (.ok (), s₁) ∧
      s₁.eventLog = NewDefaultSimulator.eventLog ++
        [⟨9, sha256 (utf16leEncode (nulTerminate [99, 58, 49])),
          some (utf16leEncode (nulTerminate [99, 58, 49])),
          "EV_EVENT_TAG: Linux LOAD_FILE2 protocol: cmdline"⟩,
         ⟨9, List.replicate 32 7, none, "EV_EVENT_TAG: Linux LOAD_FILE2 protocol: initrd"⟩] :=
  ⟨by decide,
   predictPCR9_two_ordered_extends NewDefaultSimulator [99, 58, 49] (List.replicate 32 7)
     (by decide)⟩

/-- C4: a command line whose final byte is not NUL is measured exactly
as the same command line with one NUL appended: `PredictPCR9` yields
the same register-9 extensions and the same resulting state. -/
theorem predictPCR9_repair_matches_explicit_nul (sim : Simulator)
    (cmdline initrdDigest : List Nat) (hlast : cmdline.getLast? ≠ some 0) :
    PredictPCR9 sim cmdline initrdDigest = PredictPCR9 sim (cmdline ++ [0]) initrdDigest := by
  have h : nulTerminate cmdline = nulTerminate (cmdline ++ [0]) := by
    rw [nulTerminate_of_getLast_ne cmdline hlast, nulTerminate_concat_zero]
  simp only [PredictPCR9, h]

/-- Closed instance of `predictPCR9_repair_matches_explicit_nul` at a
concrete command line. -/
theorem predictPCR9_repair_matches_explicit_nul_witness :
    ([99, 61, 49] : List Nat).getLast? ≠ some 0 ∧
    PredictPCR9 NewDefaultSimulator [99, 61, 49] (List.replicate 32 3) =
      PredictPCR9 NewDefaultSimulator ([99, 61, 49] ++ [0]) (List.replicate 32 3) :=
  ⟨by decide,
   predictPCR9_repair_matches_explicit_nul NewDefaultSimulator [99, 61, 49]
     (List.replicate 32 3) (by decide)⟩

/-- C8: the empty command line triggers the repair (the guard
short-circuits before the last-byte lookup) and is measured identically
to the one-byte command line `[0x00]`: register 9 is extended with the
SHA-256 of the UTF-16LE encoding of a single NUL byte. -/
theorem predictPCR9_empty_cmdline_safe (sim : Simulator) (initrdDigest : List Nat) :
    PredictPCR9 sim [] initrdDigest = PredictPCR9 sim [0] initrdDigest ∧
    ∃ s₁, PredictPCR9 sim [] initrdDigest = (.ok (), s₁) ∧
      s₁.eventLog = sim.eventLog ++
        [⟨9, sha256 (utf16leEncode [0]), some (utf16leEncode [0]),
          "EV_EVENT_TAG: Linux LOAD_FILE2 protocol: cmdline"⟩,
         ⟨9, initrdDigest, none, "EV_EVENT_TAG: Linux LOAD_FILE2 protocol: initrd"⟩] := by
  have h0 : nulTerminate [] = [0] := by decide
  have h1 : nulTerminate [0] = [0] := by decide
  constructor
  · simp only [PredictPCR9, h0, h1]
  · exact ⟨_, rfl, by simp [nulTerminate]⟩

/-- Concrete UKI bytes for witness environments. -/
def wBytes : List Nat := [10, 11, 12, 13, 14, 15]

/-- Concrete header geometry with `.linux`, `.cmdline` and `.initrd`
sections, used by witness environments. -/
def wMetaAll : PEMeta :=
  ⟨0, 0, 0, [⟨".linux", 0, 2⟩, ⟨".cmdline", 2, 2⟩, ⟨".initrd", 4, 2⟩], 6, 0⟩

/-- Concrete header geometry missing the `.initrd` section. -/
def wMetaNoInitrd : PEMeta := ⟨0, 0, 0, [⟨".linux", 0, 2⟩, ⟨".cmdline", 2, 2⟩], 6, 0⟩

/-- Concrete environment in which every orchestrator step succeeds. -/
def wEnvAll : Env :=
  ⟨.ok "/tmp/m", fun _ _ _ _ => .ok (), fun _ => .ok wBytes, fun _ => .ok wMetaAll⟩

/-- Concrete environment whose binary has no `.initrd` section. -/
def wEnvNoInitrd : Env :=
  ⟨.ok "/tmp/m", fun _ _ _ _ => .ok (), fun _ => .ok wBytes, fun _ => .ok wMetaNoInitrd⟩

/-- C5: running the register-9 predictor against a binary missing its
initrd section (or its command-line section) fails with
`SectionNotFound` and returns the simulator unchanged from its pre-call
value: both required sections are resolved before any extend of
register 9 happens, so no zero or partial measurement is substituted. -/
theorem precalculatePCR9_missing_section_unchanged (env : Env) (sim : Simulator)
    (ukiFile : String) (bytes : List Nat) (m : PEMeta)
    (hopen : env.openFile ukiFile = .ok bytes)
    (hparse : env.parsePE bytes = .ok m)
    (hmiss : m.sections.find? (fun s => s.name = ".cmdline") = none ∨
             m.sections.find? (fun s => s.name = ".initrd") = none) :
    ∃ name, (name = ".cmdline" ∨ name = ".initrd") ∧
      precalculatePCR9 env sim ukiFile = (.error (.sectionNotFound name), sim) := by
  cases hc : m.sections.find? (fun s => s.name = ".cmdline") with
  | none =>
      exact ⟨".cmdline", Or.inl rfl, by
        simp only [precalculatePCR9, hopen, PeSectionReader, hparse, hc]⟩
  | some s =>
      have hi : m.sections.find? (fun s => s.name = ".initrd") = none := by
        rcases hmiss with h | h
        · rw [h] at hc; simp at hc
        · exact h
      exact ⟨".initrd", Or.inr rfl, by
        simp only [precalculatePCR9, hopen, PeSectionReader, hparse, hc, hi]⟩

/-- Closed instance of `precalculatePCR9_missing_section_unchanged` on a
binary without an `.initrd` section. -/
theorem precalculatePCR9_missing_section_unchanged_witness :
    wEnvNoInitrd.openFile "uki.efi" = .ok wBytes ∧
    wEnvNoInitrd.parsePE wBytes = .ok wMetaNoInitrd ∧
    (wMetaNoInitrd.sections.find? (fun s => s.name = ".cmdline") = none ∨
     wMetaNoInitrd.sections.find? (fun s => s.name = ".initrd") = none) ∧
    ∃ name, (name = ".cmdline" ∨ name = ".initrd") ∧
      precalculatePCR9 wEnvNoInitrd NewDefaultSimulator "uki.efi" =
        (.error (.sectionNotFound name), NewDefaultSimulator) :=
  ⟨rfl, rfl, by decide,
   precalculatePCR9_missing_section_unchanged wEnvNoInitrd NewDefaultSimulator "uki.efi"
     wBytes wMetaNoInitrd rfl rfl (by decide)⟩

/-- C2: the register-4 predictor produces exactly two ordered events,
each with event digest `SHA256(authentihash(...))`: first for the whole
measured binary (labeled as the UKI boot image), second for the bytes
of its embedded `.linux` kernel section (labeled as Linux), in that
fixed order. -/
theorem precalculatePCR4_two_authentihash_events (env : Env) (sim : Simulator)
    (ukiFile : String) (ukiBytes ukiHash linuxBytes linuxHash : List Nat)
    (hopen : env.openFile ukiFile = .ok ukiBytes)
    (huki : AuthentihashOf env.parsePE ukiBytes = .ok ukiHash)
    (hsec : PeSectionReader env.parsePE ukiBytes ".linux" = .ok linuxBytes)
    (hlin : AuthentihashOf env.parsePE linuxBytes = .ok linuxHash) :
    ∃ s₀ s₁,
      ExtendPCR sim 4 (sha256 ukiHash) none
        "EV_EFI_BOOT_SERVICES_APPLICATION: Unified Kernel Image (UKI)" = (.ok (), s₀) ∧
      ExtendPCR s₀ 4 (sha256 linuxHash) none
        "EV_EFI_BOOT_SERVICES_APPLICATION: Linux" = (.ok (), s₁) ∧
      precalculatePCR4 env sim ukiFile = (.ok (), s₁) ∧
      s₁.eventLog = sim.eventLog ++
        [⟨4, sha256 ukiHash, none, "EV_EFI_BOOT_SERVICES_APPLICATION: Unified Kernel Image (UKI)"⟩,
         ⟨4, sha256 linuxHash, none, "EV_EFI_BOOT_SERVICES_APPLICATION: Linux"⟩] := by
  refine ⟨_, _, rfl, rfl, ?_, ?_⟩
  · simp only [precalculatePCR4, measurePE, hopen, huki, hsec, hlin]
    rfl
  · simp

/-- Closed instance of `precalculatePCR4_two_authentihash_events` in the
all-sections witness environment. -/
theorem precalculatePCR4_two_authentihash_events_witness :
    wEnvAll.openFile "uki.efi" = .ok wBytes ∧
    AuthentihashOf wEnvAll.parsePE wBytes = .ok (Authentihash wMetaAll wBytes) ∧
    PeSectionReader wEnvAll.parsePE wBytes ".linux" = .ok (byteRange wBytes 0 (0 + 2)) ∧
    AuthentihashOf wEnvAll.parsePE (byteRange wBytes 0 (0 + 2)) =
      .ok (Authentihash wMetaAll (byteRange wBytes 0 (0 + 2))) ∧
    ∃ s₀ s₁,
      ExtendPCR NewDefaultSimulator 4 (sha256 (Authentihash wMetaAll wBytes)) none
        "EV_EFI_BOOT_SERVICES_APPLICATION: Unified Kernel Image (UKI)" = (.ok (), s₀) ∧
      ExtendPCR s₀ 4 (sha256 (Authentihash wMetaAll (byteRange wBytes 0 (0 + 2)))) none
        "EV_EFI_BOOT_SERVICES_APPLICATION: Linux" = (.ok (), s₁) ∧
      precalculatePCR4 wEnvAll NewDefaultSimulator "uki.efi" = (.ok (), s₁) ∧
      s₁.eventLog = NewDefaultSimulator.eventLog ++
        [⟨4, sha256 (Authentihash wMetaAll wBytes), none,
          "EV_EFI_BOOT_SERVICES_APPLICATION: Unified Kernel Image (UKI)"⟩,
         ⟨4, sha256 (Authentihash wMetaAll (byteRange wBytes 0 (0 + 2))), none,
          "EV_EFI_BOOT_SERVICES_APPLICATION: Linux"⟩] :=
  ⟨rfl, rfl, rfl, rfl,
   precalculatePCR4_two_authentihash_events wEnvAll NewDefaultSimulator "uki.efi"
     wBytes (Authentihash wMetaAll wBytes) (byteRange wBytes 0 (0 + 2))
     (Authentihash wMetaAll (byteRange wBytes 0 (0 + 2))) rfl rfl rfl rfl⟩

/-- Case analysis of the orchestrator: a run either surfaces an error,
or every step succeeded and the result is the simulator produced by the
three predictors chained in order from the freshly created one. -/
lemma precalcCases (env : Env) (t u i : String) :
    (∃ e, PrecalculatePCRs env t u i = .error e) ∨
    (∃ dir bytes secs s1 s2 s3,
      env.tempDir = .ok dir ∧
      env.copyFrom t i u (dir ++ "/uki.efi") = .ok () ∧
      env.openFile (dir ++ "/uki.efi") = .ok bytes ∧
      PeFileSectionDigests env.parsePE bytes = .ok secs ∧
      precalculatePCR4 env NewDefaultSimulator (dir ++ "/uki.efi") = (.ok (), s1) ∧
      precalculatePCR9 env s1 (dir ++ "/uki.efi") = (.ok (), s2) ∧
      precalculatePCR11 s2 secs = (.ok (), s3) ∧
      PrecalculatePCRs env t u i = .ok s3) := by
  cases htd : env.tempDir with
  | error e => exact Or.inl ⟨e, by simp only [PrecalculatePCRs, htd]⟩
  | ok dir =>
  cases hcf : env.copyFrom t i u (dir ++ "/uki.efi") with
  | error e => exact Or.inl ⟨e, by simp only [PrecalculatePCRs, htd, hcf]⟩
  | ok uv =>
  cases hof : env.openFile (dir ++ "/uki.efi") with
  | error e => exact Or.inl ⟨e, by simp only [PrecalculatePCRs, htd, hcf, hof]⟩
  | ok bytes =>
  cases hsd : PeFileSectionDigests env.parsePE bytes with
  | error e => exact Or.inl ⟨e, by simp only [PrecalculatePCRs, htd, hcf, hof, hsd]⟩
  | ok secs =>
  cases h4 : precalculatePCR4 env NewDefaultSimulator (dir ++ "/uki.efi") with
  | mk r4 s1 =>
  cases r4 with
  | error e => exact Or.inl ⟨e, by simp only [PrecalculatePCRs, htd, hcf, hof, hsd, h4]⟩
  | ok v4 =>
  cases h9 : precalculatePCR9 env s1 (dir ++ "/uki.efi") with
  | mk r9 s2 =>
  cases r9 with
  | error e => exact Or.inl ⟨e, by simp only [PrecalculatePCRs, htd, hcf, hof, hsd, h4, h9]⟩
  | ok v9 =>
  cases h11 : precalculatePCR11 s2 secs with
  | mk r11 s3 =>
  cases r11 with
  | error e =>
      exact Or.inl ⟨e, by simp only [PrecalculatePCRs, htd, hcf, hof, hsd, h4, h9, h11]⟩
  | ok v11 =>
      exact Or.inr ⟨dir, bytes, secs, s1, s2, s3, rfl, hcf, hof, hsd, h4, h9, h11,
        by simp only [PrecalculatePCRs, htd, hcf, hof, hsd, h4, h9, h11]⟩

/-- C6: on every input where any orchestrator step fails (temporary
directory, extraction, open, section-digest parsing, or any of the
three predictors) `PrecalculatePCRs` returns an error and no Bank at
all; the only successful outcome is the fully populated simulator with
every step having run exactly once (the straight-line chain below), so
a partially populated Bank is never returned and no failure is retried. -/
theorem precalculatePCRs_error_no_incomplete_bank (env : Env) (t u i : String) :
    (∃ e, PrecalculatePCRs env t u i = .error e) ∨
    (∃ dir bytes secs s1 s2 s3,
      env.tempDir = .ok dir ∧
      env.copyFrom t i u (dir ++ "/uki.efi") = .ok () ∧
      env.openFile (dir ++ "/uki.efi") = .ok bytes ∧
      PeFileSectionDigests env.parsePE bytes = .ok secs ∧
      precalculatePCR4 env NewDefaultSimulator (dir ++ "/uki.efi") = (.ok (), s1) ∧
      precalculatePCR9 env s1 (dir ++ "/uki.efi") = (.ok (), s2) ∧
      precalculatePCR11 s2 secs = (.ok (), s3) ∧
      PrecalculatePCRs env t u i = .ok s3) :=
  precalcCases env t u i

/-- C7: every successful run of the orchestrator executed the
register-4, register-9 and register-11 predictors in that fixed order,
each against the state left by the previous one starting from the
single simulator created at the start of the run, and the returned
simulator is that shared instance after the last predictor. -/
theorem precalculatePCRs_ordered_shared_simulator (env : Env) (t u i : String)
    (sim : Simulator) (h : PrecalculatePCRs env t u i = .ok sim) :
    ∃ dir bytes secs s1 s2,
      env.tempDir = .ok dir ∧
      env.copyFrom t i u (dir ++ "/uki.efi") = .ok () ∧
      env.openFile (dir ++ "/uki.efi") = .ok bytes ∧
      PeFileSectionDigests env.parsePE bytes = .ok secs ∧
      precalculatePCR4 env NewDefaultSimulator (dir ++ "/uki.efi") = (.ok (), s1) ∧
      precalculatePCR9 env s1 (dir ++ "/uki.efi") = (.ok (), s2) ∧
      precalculatePCR11 s2 secs = (.ok (), sim) := by
  rcases precalcCases env t u i with ⟨e, he⟩ | ⟨dir, bytes, secs, s1, s2, s3, h1, h2, h3, h4, h5, h6, h7, h8⟩
  · rw [h] at he; cases he
  · rw [h] at h8
    injection h8 with hs
    subst hs
    exact ⟨dir, bytes, secs, s1, s2, h1, h2, h3, h4, h5, h6, h7⟩

/-- The simulator produced by a successful concrete run. -/
def wSim : Simulator :=
  match PrecalculatePCRs wEnvAll "systemd-dissect" "/boot/EFI/BOOT/BOOTX64.EFI" "image.raw" with
  | .ok s => s
  | .error _ => NewDefaultSimulator

/-- Closed instance of `precalculatePCRs_ordered_shared_simulator` on a
concrete successful run. -/
theorem precalculatePCRs_ordered_shared_simulator_witness :
    PrecalculatePCRs wEnvAll "systemd-dissect" "/boot/EFI/BOOT/BOOTX64.EFI" "image.raw" =
      .ok wSim ∧
    ∃ dir bytes secs s1 s2,
      wEnvAll.tempDir = .ok dir ∧
      wEnvAll.copyFrom "systemd-dissect" "image.raw" "/boot/EFI/BOOT/BOOTX64.EFI"
        (dir ++ "/uki.efi") = .ok () ∧
      wEnvAll.openFile (dir ++ "/uki.efi") = .ok bytes ∧
      PeFileSectionDigests wEnvAll.parsePE bytes = .ok secs ∧
      precalculatePCR4 wEnvAll NewDefaultSimulator (dir ++ "/uki.efi") = (.ok (), s1) ∧
      precalculatePCR9 wEnvAll s1 (dir ++ "/uki.efi") = (.ok (), s2) ∧
      precalculatePCR11 s2 secs = (.ok (), wSim) :=
  ⟨rfl,
   precalculatePCRs_ordered_shared_simulator wEnvAll "systemd-dissect"
     "/boot/EFI/BOOT/BOOTX64.EFI" "image.raw" wSim rfl⟩

/-- The executable name `loadToolchain` resolves: the environment
override, or the fallback when the override is empty. -/
def toolchainName (env : ToolchainEnv) (key fallback : String) : String :=
  if env.getenv key = "" then fallback else env.getenv key

/-- C9: `loadToolchain` is total (it returns a string, never an error):
either it returns the empty string, or lookup of the override-or-
fallback name succeeded on the search path and the returned string is
its absolute path — so whenever the executable cannot be resolved or
made absolute, the result is the empty string rather than a failure. -/
theorem loadToolchain_total_empty_on_failure (env : ToolchainEnv) (key fallback : String) :
    loadToolchain env key fallback = "" ∨
    ∃ p, env.lookPath (toolchainName env key fallback) = .ok p ∧
      env.abs p = .ok (loadToolchain env key fallback) := by
  unfold loadToolchain toolchainName
  cases hl : env.lookPath (if env.getenv key = "" then fallback else env.getenv key) with
  | error e => simp [hl]
  | ok found =>
    cases ha : env.abs found with
    | error e => simp [hl, ha]
    | ok absolutePath =>
      exact Or.inr ⟨found, rfl, by simp [hl, ha]⟩

/-- Concrete run environment in which precalculation succeeds but the
output write fails (the file cannot be created). -/
def wRunEnvWriteFail : RunEnv :=
  ⟨.ok NewDefaultSimulator, fun _ => .error .ioError⟩

/-- Concrete flags with a non-empty output file. -/
def wFlagsOut : PrecalcFlags := ⟨"out.json", "/boot/EFI/BOOT/BOOTX64.EFI"⟩

/-- C10, counterexample: with a non-empty output-file flag and a
successful precalculation, a failing write leaves the measurements
unpersisted, so "persists iff the flag is non-empty and precalculation
succeeded" is false as stated. -/
theorem runPrecalculateMeasurements_persist_iff_counterexample :
    wFlagsOut.outputFile ≠ "" ∧
    wRunEnvWriteFail.precalc.isOk = true ∧
    (runPrecalculateMeasurements wRunEnvWriteFail wFlagsOut).2 = false := by
  refine ⟨by decide, rfl, rfl⟩

/-- C10, amended: the serialized simulator is persisted if and only if
the output-file flag is non-empty, precalculation succeeded, and the
write itself succeeded; with an empty output-file flag the command
mirrors the precalculation outcome (in particular it still succeeds
when precalculation did) and persists nothing. -/
theorem runPrecalculateMeasurements_persist_iff (env : RunEnv) (flags : PrecalcFlags) :
    ((runPrecalculateMeasurements env flags).2 = true ↔
      flags.outputFile ≠ "" ∧ env.precalc.isOk = true ∧
        env.writeOut flags.outputFile = .ok ()) ∧
    (flags.outputFile = "" →
      runPrecalculateMeasurements env flags = (env.precalc.map (fun _ => ()), false)) := by
  cases hp : env.precalc with
  | error e =>
      constructor
      · simp [runPrecalculateMeasurements, hp, Except.isOk, Except.toBool]
      · intro hof
        simp [runPrecalculateMeasurements, hp, Except.map]
  | ok simv =>
      constructor
      · by_cases hof : flags.outputFile = ""
        · simp [runPrecalculateMeasurements, hp, hof]
        · cases hw : env.writeOut flags.outputFile with
          | error e =>
              simp [runPrecalculateMeasurements, hp, hof, hw]
          | ok wv =>
              simp [runPrecalculateMeasurements, hp, hof, hw, Except.isOk, Except.toBool]
      · intro hof
        simp [runPrecalculateMeasurements, hp, hof, Except.map]

/-- Taking a prefix of the byte list commutes with an overwrite that
starts at or after the end of the prefix. -/
lemma take_setRange {l repl : List Nat} {off b : Nat} (hb : b ≤ off) (hoff : off ≤ l.length) :
    (setRange l off repl).take b = l.take b := by
  unfold setRange
  rw [List.take_append_eq_append_take, List.take_append_eq_append_take]
  have h1 : (l.take off).length = off := by rw [List.length_take]; omega
  rw [List.length_append, h1]
  rw [Nat.sub_eq_zero_of_le hb, Nat.sub_eq_zero_of_le (by omega : b ≤ off + repl.length)]
  rw [List.take_zero, List.take_zero, List.append_nil, List.append_nil, List.take_take]
  congr 1
  omega

/-- Dropping past the end of an in-bounds overwrite sees the original
suffix. -/
lemma drop_setRange {l repl : List Nat} {off d : Nat} (hd : off + repl.length ≤ d)
    (hlen : off + repl.length ≤ l.length) :
    (setRange l off repl).drop d = l.drop d := by
  unfold setRange
  rw [List.drop_append_eq_append_drop, List.drop_append_eq_append_drop]
  have h1 : (l.take off).length = off := by rw [List.length_take]; omega
  rw [List.length_append, h1]
  rw [List.drop_eq_nil_of_le (show (l.take off).length ≤ d by rw [h1]; omega)]
  rw [List.drop_eq_nil_of_le (show repl.length ≤ d - off by omega)]
  rw [List.drop_drop]
  simp only [List.nil_append]
  congr 1
  omega

/-- A byte range as a drop followed by a take. -/
lemma byteRange_eq_drop_take (l : List Nat) (a b : Nat) :
    byteRange l a b = (l.drop a).take (b - a) := by
  unfold byteRange
  rw [List.drop_take]

/-- A byte range entirely below an overwrite is unchanged. -/
lemma byteRange_setRange_below {l repl : List Nat} {off a b : Nat} (hb : b ≤ off)
    (hoff : off ≤ l.length) :
    byteRange (setRange l off repl) a b = byteRange l a b := by
  unfold byteRange
  rw [take_setRange hb hoff]

/-- A byte range entirely above an in-bounds overwrite is unchanged. -/
lemma byteRange_setRange_above {l repl : List Nat} {off a b : Nat}
    (ha : off + repl.length ≤ a) (hlen : off + repl.length ≤ l.length) :
    byteRange (setRange l off repl) a b = byteRange l a b := by
  rw [byteRange_eq_drop_take, byteRange_eq_drop_take, drop_setRange ha hlen]

/-- A byte range below a truncation point is unchanged by truncation. -/
lemma byteRange_take {l : List Nat} {c a b : Nat} (hb : b ≤ c) :
    byteRange (l.take c) a b = byteRange l a b := by
  unfold byteRange
  rw [List.take_take]
  congr 2
  omega

/-- An in-bounds overwrite preserves the length. -/
lemma length_setRange {l repl : List Nat} {off : Nat} (h : off + repl.length ≤ l.length) :
    (setRange l off repl).length = l.length := by
  unfold setRange
  simp only [List.length_append, List.length_take, List.length_drop]
  omega

/-- A left fold of `max` only grows its accumulator. -/
lemma le_foldl_max (ss : List PESectionHdr) (b : Nat) :
    b ≤ ss.foldl (fun acc s => max acc (s.off + s.size)) b := by
  induction ss generalizing b with
  | nil => exact Nat.le_refl b
  | cons x xs ih =>
      exact Nat.le_trans (Nat.le_max_left b (x.off + x.size)) (ih (max b (x.off + x.size)))

/-- The headers end before the last section ends. -/
lemma headerEnd_le_secsEnd (m : PEMeta) : m.headerEnd ≤ secsEnd m :=
  le_foldl_max m.sections m.headerEnd

/-- Membership through offset insertion. -/
lemma mem_insertByOff {t s : PESectionHdr} {ss : List PESectionHdr} :
    t ∈ insertByOff s ss ↔ t = s ∨ t ∈ ss := by
  induction ss with
  | nil => simp [insertByOff]
  | cons x xs ih =>
      unfold insertByOff
      by_cases h : s.off ≤ x.off
      · simp [h]
      · simp only [h, if_false, List.mem_cons, ih]
        tauto

/-- Sorting by offset preserves membership. -/
lemma mem_sectionsByOffset {t : PESectionHdr} {ss : List PESectionHdr} :
    t ∈ sectionsByOffset ss ↔ t ∈ ss := by
  induction ss with
  | nil => simp [sectionsByOffset]
  | cons x xs ih => simp [sectionsByOffset, mem_insertByOff, ih]

/-- Well-formed header geometry: the checksum field lies before the
certificate-table directory entry, which lies inside the headers; the
sections lie between the headers and the certificate table; and the
attached certificate table (signature) is the final `certSize` bytes of
the file. -/
def PEWellFormed (m : PEMeta) (len : Nat) : Prop :=
  m.checksumOff + 4 ≤ m.certDirOff ∧
  m.certDirOff + 8 ≤ m.headerEnd ∧
  secsEnd m ≤ m.certOff ∧
  m.certOff + m.certSize = len ∧
  ∀ s ∈ m.sections, m.headerEnd ≤ s.off ∧ s.off + s.size ≤ m.certOff

/-- C3: for a well-formed binary the Authenticode hash is invariant
under mutation of the 4-byte checksum field, under replacement of the
attached signature by another of the same size, and under removal of
the attached signature (truncating the file at the certificate table):
the hashed byte stream never includes those regions. -/
theorem authentihash_checksum_signature_invariant (m : PEMeta) (bytes ck sig : List Nat)
    (hwf : PEWellFormed m bytes.length) (hck : ck.length = 4)
    (hsig : sig.length = m.certSize) :
    Authentihash m (setRange bytes m.checksumOff ck) = Authentihash m bytes ∧
    Authentihash m (setRange bytes m.certOff sig) = Authentihash m bytes ∧
    Authentihash {m with certSize := 0} (bytes.take m.certOff) = Authentihash m bytes := by
  obtain ⟨h1, h2, h3, h4, h5⟩ := hwf
  have hhe : m.headerEnd ≤ secsEnd m := headerEnd_le_secsEnd m
  refine ⟨?_, ?_, ?_⟩
  · -- checksum mutation
    have lenA : (setRange bytes m.checksumOff ck).length = bytes.length :=
      length_setRange (by omega)
    have e1 : byteRange (setRange bytes m.checksumOff ck) 0 m.checksumOff =
        byteRange bytes 0 m.checksumOff :=
      byteRange_setRange_below (Nat.le_refl _) (by omega)
    have e2 : byteRange (setRange bytes m.checksumOff ck) (m.checksumOff + 4) m.certDirOff =
        byteRange bytes (m.checksumOff + 4) m.certDirOff :=
      byteRange_setRange_above (by omega) (by omega)
    have e3 : byteRange (setRange bytes m.checksumOff ck) (m.certDirOff + 8) m.headerEnd =
        byteRange bytes (m.certDirOff + 8) m.headerEnd :=
      byteRange_setRange_above (by omega) (by omega)
    have esec : (sectionsByOffset m.sections).map
          (fun s => byteRange (setRange bytes m.checksumOff ck) s.off (s.off + s.size)) =
        (sectionsByOffset m.sections).map
          (fun s => byteRange bytes s.off (s.off + s.size)) := by
      apply List.map_congr_left
      intro s hs
      obtain ⟨hso, hss⟩ := h5 s (mem_sectionsByOffset.mp hs)
      exact byteRange_setRange_above (by omega) (by omega)
    have etr : byteRange (setRange bytes m.checksumOff ck) (secsEnd m)
          (bytes.length - m.certSize) =
        byteRange bytes (secsEnd m) (bytes.length - m.certSize) :=
      byteRange_setRange_above (by omega) (by omega)
    unfold Authentihash
    congr 1
    unfold authentihashInput
    rw [lenA, e1, e2, e3, esec, etr]
  · -- signature replacement
    have lenB : (setRange bytes m.certOff sig).length = bytes.length :=
      length_setRange (by omega)
    have e1 : byteRange (setRange bytes m.certOff sig) 0 m.checksumOff =
        byteRange bytes 0 m.checksumOff :=
      byteRange_setRange_below (by omega) (by omega)
    have e2 : byteRange (setRange bytes m.certOff sig) (m.checksumOff + 4) m.certDirOff =
        byteRange bytes (m.checksumOff + 4) m.certDirOff :=
      byteRange_setRange_below (by omega) (by omega)
    have e3 : byteRange (setRange bytes m.certOff sig) (m.certDirOff + 8) m.headerEnd =
        byteRange bytes (m.certDirOff + 8) m.headerEnd :=
      byteRange_setRange_below (by omega) (by omega)
    have esec : (sectionsByOffset m.sections).map
          (fun s => byteRange (setRange bytes m.certOff sig) s.off (s.off + s.size)) =
        (sectionsByOffset m.sections).map
          (fun s => byteRange bytes s.off (s.off + s.size)) := by
      apply List.map_congr_left
      intro s hs
      obtain ⟨hso, hss⟩ := h5 s (mem_sectionsByOffset.mp hs)
      exact byteRange_setRange_below (by omega) (by omega)
    have etr : byteRange (setRange bytes m.certOff sig) (secsEnd m)
          (bytes.length - m.certSize) =
        byteRange bytes (secsEnd m) (bytes.length - m.certSize) :=
      byteRange_setRange_below (by omega) (by omega)
    unfold Authentihash
    congr 1
    unfold authentihashInput
    rw [lenB, e1, e2, e3, esec, etr]
  · -- signature removal
    have hlen : (bytes.take m.certOff).length = m.certOff := by
      rw [List.length_take]; omega
    have e1 : byteRange (bytes.take m.certOff) 0 m.checksumOff =
        byteRange bytes 0 m.checksumOff := byteRange_take (by omega)
    have e2 : byteRange (bytes.take m.certOff) (m.checksumOff + 4) m.certDirOff =
        byteRange bytes (m.checksumOff + 4) m.certDirOff := byteRange_take (by omega)
    have e3 : byteRange (bytes.take m.certOff) (m.certDirOff + 8) m.headerEnd =
        byteRange bytes (m.certDirOff + 8) m.headerEnd := byteRange_take (by omega)
    have esec : (sectionsByOffset m.sections).map
          (fun s => byteRange (bytes.take m.certOff) s.off (s.off + s.size)) =
        (sectionsByOffset m.sections).map
          (fun s => byteRange bytes s.off (s.off + s.size)) := by
      apply List.map_congr_left
      intro s hs
      obtain ⟨hso, hss⟩ := h5 s (mem_sectionsByOffset.mp hs)
      exact byteRange_take (by omega)
    have etr : byteRange (bytes.take m.certOff) (secsEnd m) (m.certOff - 0) =
        byteRange bytes (secsEnd m) (bytes.length - m.certSize) := by
      rw [byteRange_take (by omega : m.certOff - 0 ≤ m.certOff)]
      congr 1
      omega
    unfold Authentihash
    congr 1
    unfold authentihashInput
    simp only
    rw [hlen, e1, e2, e3, esec]
    have hse : secsEnd {m with certSize := 0} = secsEnd m := rfl
    rw [hse, etr]

/-- Concrete well-formed header geometry for the Authenticode witness. -/
def wPEMeta : PEMeta := ⟨2, 8, 18, [⟨".linux", 18, 4⟩], 22, 3⟩

/-- Concrete binary bytes (25 distinct values) for the Authenticode
witness. -/
def wPEBytes : List Nat := List.range 25

/-- Closed instance of `authentihash_checksum_signature_invariant` at a
concrete binary, checksum and signature. -/
theorem authentihash_checksum_signature_invariant_witness :
    PEWellFormed wPEMeta wPEBytes.length ∧
    ([9, 9, 9, 9] : List Nat).length = 4 ∧
    ([7, 7, 7] : List Nat).length = wPEMeta.certSize ∧
    (Authentihash wPEMeta (setRange wPEBytes wPEMeta.checksumOff [9, 9, 9, 9]) =
        Authentihash wPEMeta wPEBytes ∧
      Authentihash wPEMeta (setRange wPEBytes wPEMeta.certOff [7, 7, 7]) =
        Authentihash wPEMeta wPEBytes ∧
      Authentihash {wPEMeta with certSize := 0} (wPEBytes.take wPEMeta.certOff) =
        Authentihash wPEMeta wPEBytes) :=
  ⟨by unfold PEWellFormed; decide, by decide, by decide,
   authentihash_checksum_signature_invariant wPEMeta wPEBytes [9, 9, 9, 9] [7, 7, 7]
     (by unfold PEWellFormed; decide) (by decide) (by decide)⟩

/-- Concrete run environment in which precalculation and the write both
succeed. -/
def wRunEnvOk : RunEnv := ⟨.ok NewDefaultSimulator, fun _ => .ok ()⟩

/-- Concrete flags with an empty output file. -/
def wFlagsEmpty : PrecalcFlags := ⟨"", "/boot/EFI/BOOT/BOOTX64.EFI"⟩

/-- Closed instance of `runPrecalculateMeasurements_persist_iff` at a
concrete environment and flags. -/
theorem runPrecalculateMeasurements_persist_iff_witness :
    ((runPrecalculateMeasurements wRunEnvOk wFlagsEmpty).2 = true ↔
      wFlagsEmpty.outputFile ≠ "" ∧ wRunEnvOk.precalc.isOk = true ∧
        wRunEnvOk.writeOut wFlagsEmpty.outputFile = .ok ()) ∧
    (wFlagsEmpty.outputFile = "" →
      runPrecalculateMeasurements wRunEnvOk wFlagsEmpty =
        (wRunEnvOk.precalc.map (fun _ => ()), false)) :=
  runPrecalculateMeasurements_persist_iff wRunEnvOk wFlagsEmpty
